import Mathlib

/-!
# Verification of the YIN pitch estimator (`src/index.mjs`)

Shallow embedding of the `Yin` class.  JavaScript numbers that can become
`NaN` are modelled as `Option ℚ` (`none` = NaN; an out-of-bounds typed-array
read yields `undefined`, which behaves like NaN in every arithmetic
operation and comparison the code performs, so it is also modelled `none`).
Finite values are modelled as exact rationals (the spec's "real numbers";
Float32 rounding is not modelled).

JavaScript division by zero yields `±Infinity` (or NaN for `0/0`).  In this
program a division `x / 0` is always followed only by operations whose JS
result coincides with NaN-propagation (`sum * (tau/0)` has `sum = 0`
whenever the running total is `0`, and `0 * Infinity = NaN`), or is the
final `sampleRate / period` whose divisor is proved non-zero whenever it is
finite; so `jsDiv` collapses division by zero to `none`.
-/

/-- A JavaScript number that is either a finite value (`some q`) or NaN
(`none`); `none` also stands for the `undefined` produced by an
out-of-bounds typed-array read, which the code only ever feeds to
arithmetic and comparisons, where it behaves exactly like NaN. -/
abbrev JsNum := Option ℚ

def jsAdd : JsNum → JsNum → JsNum
  | some a, some b => some (a + b)
  | _, _ => none

def jsSub : JsNum → JsNum → JsNum
  | some a, some b => some (a - b)
  | _, _ => none

def jsMul : JsNum → JsNum → JsNum
  | some a, some b => some (a * b)
  | _, _ => none

/-- JS division; division by zero collapsed to `none` (see header note). -/
def jsDiv : JsNum → JsNum → JsNum
  | some a, some b => if b = 0 then none else some (a / b)
  | _, _ => none

/-- JS `<`: false whenever either side is NaN. -/
def jsLt : JsNum → JsNum → Bool
  | some a, some b => decide (a < b)
  | _, _ => false

/-- JS `<=`: false whenever either side is NaN. -/
def jsLe : JsNum → JsNum → Bool
  | some a, some b => decide (a ≤ b)
  | _, _ => false

/-- JS `>=`: false whenever either side is NaN. -/
def jsGe (a b : JsNum) : Bool := jsLe b a

/-- Read `data[i]` from the caller's sample array (finite reals); an
out-of-bounds read gives `undefined`, i.e. `none`. -/
def dGet (d : List ℚ) (i : ℕ) : JsNum := d[i]?

/-- Read `this._yinBuffer[i]`; an out-of-bounds read gives `undefined`,
i.e. `none`. -/
def sGet (s : List JsNum) (i : ℕ) : JsNum := (s[i]?).getD none

/-- The inner loop of `_asf` for one lag `tau`:
`sum += (data[index] - data[index + tau]) ** 2` for
`index = 0 .. this._yinBuffer.length - 1`, starting from `sum = 0`. -/
def sumAt (d : List ℚ) (L tau : ℕ) : JsNum :=
  (List.range L).foldl
    (fun sum index =>
      jsAdd sum (jsMul (jsSub (dGet d index) (dGet d (index + tau)))
                       (jsSub (dGet d index) (dGet d (index + tau)))))
    (some 0)

/-- One iteration of the outer loop of `_asf`: carry the running `total`,
then `this._yinBuffer[tau] = sum * (tau / total)`. -/
def cmndfStep (d : List ℚ) (L : ℕ) (st : JsNum × List JsNum) (tau : ℕ) :
    JsNum × List JsNum :=
  let sum := sumAt d L tau
  let total := jsAdd st.1 sum
  (total, st.2.set tau (jsMul sum (jsDiv (some (tau : ℚ)) total)))

/-- `Yin._asf(data)`: writes `this._yinBuffer[0] = 1`, then runs the outer
loop for `tau = 1 .. this._yinBuffer.length - 1` with `total` starting at
`0`.  The scratch buffer `s` is the buffer as left by the previous call
(every cell is overwritten before being read). -/
def asf (d : List ℚ) (s : List JsNum) : List JsNum :=
  ((List.range' 1 (s.length - 1)).foldl (cmndfStep d s.length)
    (some 0, s.set 0 (some 1))).2

/-- First `while` of `_estimatePeriod`:
`while (tau < maxLag && yinBuffer[tau] >= threshold) tau++`.
The loop is bounded (`tau` grows towards `maxLag`); `fuel` is any bound on
the remaining iterations — `maxLag ≤ tau + fuel` makes it faithful. -/
def loop1 (s : List JsNum) (θ : ℚ) (maxLag : ℕ) : ℕ → ℕ → ℕ
  | 0, tau => tau
  | fuel + 1, tau =>
    if tau < maxLag ∧ jsGe (sGet s tau) (some θ) = true then
      loop1 s θ maxLag fuel (tau + 1)
    else tau

/-- Second `while` of `_estimatePeriod`:
`while (tau < maxLag && yinBuffer[tau + 1] < yinBuffer[tau]) tau++`. -/
def loop2 (s : List JsNum) (maxLag : ℕ) : ℕ → ℕ → ℕ
  | 0, tau => tau
  | fuel + 1, tau =>
    if tau < maxLag ∧ jsLt (sGet s (tau + 1)) (sGet s tau) = true then
      loop2 s maxLag fuel (tau + 1)
    else tau

/-- Steps 4 of `_estimatePeriod`: `maxLag = yinBuffer.length - 1`, start at
`tau = 2`, run both `while` loops.  (For an empty buffer JS has
`maxLag = -1`; the ℕ truncation to `0` is equivalent because `tau ≥ 2` and
both loops only compare `tau < maxLag`.)  `s.length` is enough fuel: each
loop runs fewer than `maxLag ≤ s.length` iterations. -/
def phaseB (s : List JsNum) (θ : ℚ) : ℕ :=
  let maxLag := s.length - 1
  loop2 s maxLag s.length (loop1 s θ maxLag s.length 2)

/-- Step 5 of `_estimatePeriod`, the parabolic interpolation:
`delta = yinBuffer[tau - 1] - yinBuffer[tau + 1]`,
`den = yinBuffer[tau + 1] - 2 * yinBuffer[tau] + yinBuffer[tau - 1]`,
`return den === 0 ? tau : tau + delta / (2 * den)`. -/
def phaseC (s : List JsNum) (tau : ℕ) : JsNum :=
  let delta := jsSub (sGet s (tau - 1)) (sGet s (tau + 1))
  let den := jsAdd (jsSub (sGet s (tau + 1)) (jsMul (some 2) (sGet s tau)))
    (sGet s (tau - 1))
  if den = some 0 then some (tau : ℚ)
  else jsAdd (some (tau : ℚ)) (jsDiv delta (jsMul (some 2) den))

/-- `Yin._estimatePeriod()`.  Its documented type is `number | null`, but
every path returns a number, hence the unconditional `some`. -/
def estimatePeriod (s : List JsNum) (θ : ℚ) : Option JsNum :=
  some (phaseC s (phaseB s θ))

/-- The state of a `Yin` instance: the three frozen configuration fields and
the reusable scratch buffer `_yinBuffer`. -/
structure Yin where
  bufferLength : ℕ
  sampleRate : ℚ
  threshold : ℚ
  yinBuffer : List JsNum
deriving DecidableEq

/-- A freshly constructed instance (after validation):
`this._yinBuffer = new Float32Array(bufferLength / 2)`, zero-initialized. -/
def Yin.make (bufferLength : ℕ) (sampleRate : ℚ) (threshold : ℚ) : Yin :=
  ⟨bufferLength, sampleRate, threshold, List.replicate (bufferLength / 2) (some 0)⟩

/-- Everything a call of `getPitch` leaves behind: the returned number, the
instance as the call leaves it, and the caller's sample array as the call
leaves it (the source contains no assignment to `data`, so that component
is passed through unchanged). -/
structure CallResult where
  ret : JsNum
  inst : Yin
  data : List ℚ
deriving DecidableEq

/-- `Yin.getPitch(data)`: throw (`.error`) on a length mismatch, otherwise
run `_asf`, then `_estimatePeriod`, and return `sampleRate / period` when
the period is non-null, `-1` otherwise. -/
def getPitch (y : Yin) (d : List ℚ) : Except Unit CallResult :=
  if d.length = y.bufferLength then
    let s := asf d y.yinBuffer
    match estimatePeriod s y.threshold with
    | some period => .ok ⟨jsDiv (some y.sampleRate) period, { y with yinBuffer := s }, d⟩
    | none => .ok ⟨some (-1), { y with yinBuffer := s }, d⟩
  else
    .error ()

/-! ## Constructor validation (`Yin.constructor`) -/

/-- Truncation toward zero, the first step of JS `ToInt32`. -/
def ratTrunc (x : ℚ) : ℤ := if 0 ≤ x then ⌊x⌋ else -⌊-x⌋

/-- JS `ToInt32`: truncate toward zero, then wrap into `[-2^31, 2^31)`. -/
def jsToInt32 (x : ℚ) : ℤ := (ratTrunc x + 2 ^ 31) % 2 ^ 32 - 2 ^ 31

/-- `if (bufferLength & 1) throw`: `&` applies `ToInt32` to its operands and
`& 1` extracts the low bit, i.e. `jsToInt32 x` modulo `2`; the result is
truthy exactly when that bit is `1`. -/
def frameLengthCheckFails (x : ℚ) : Bool := jsToInt32 x % 2 = 1

/-- `Number.isSafeInteger`: an integer of magnitude at most `2^53 - 1`. -/
def isSafeIntegerQ (x : ℚ) : Bool := x.den = 1 ∧ x.num.natAbs ≤ 2 ^ 53 - 1

/-- `if (sampleRate <= 0 || !Number.isSafeInteger(sampleRate)) throw`. -/
def sampleRateCheckFails (x : ℚ) : Bool := decide (x ≤ 0) || !isSafeIntegerQ x

/-- A JS value passed as `threshold`: a number (possibly NaN) or any
non-number value (`typeof threshold !== "number"`). -/
inductive JsVal where
  | num (x : JsNum)
  | nonNumber
deriving DecidableEq

/-- `if (typeof threshold !== "number" || threshold <= 0 || threshold >= 1)
throw`; the comparisons are JS comparisons, false on NaN. -/
def thresholdCheckFails : JsVal → Bool
  | .nonNumber => true
  | .num x => jsLe x (some 0) || jsGe x (some 1)

/-- The constructor throws `TypeError` exactly when one of its three
validation checks fails (they run in order; the order is irrelevant to
whether it throws). -/
def yinCtorThrows (bufferLength sampleRate : ℚ) (threshold : JsVal) : Bool :=
  frameLengthCheckFails bufferLength || sampleRateCheckFails sampleRate ||
    thresholdCheckFails threshold

/-! ## Spec-side definitions

These follow the spec's words (§4.2), to be compared with the embedded
code. -/

/-- Spec, Phase A: `sum = Σ (samples[i] - samples[i+tau])²` for `i` from `0`
to `L-1` (in-bounds reads; `getD` is irrelevant under the length
hypotheses used with it). -/
def diffSum (d : List ℚ) (L tau : ℕ) : ℚ :=
  ∑ i ∈ Finset.range L, (d.getD i 0 - d.getD (i + tau) 0) ^ 2

/-- Spec, Phase A: the running `total`, the cumulative sum of
`sum_1 .. sum_tau` including the current one. -/
def cumTotal (d : List ℚ) (L tau : ℕ) : ℚ :=
  ∑ j ∈ Finset.Icc 1 tau, diffSum d L j

/-- Spec, Phase C: `delta = scratchBuffer[tau-1] - scratchBuffer[tau+1]`. -/
def specDelta (s : List JsNum) (tau : ℕ) : JsNum :=
  jsSub (sGet s (tau - 1)) (sGet s (tau + 1))

/-- Spec, Phase C:
`den = scratchBuffer[tau+1] - 2*scratchBuffer[tau] + scratchBuffer[tau-1]`. -/
def specDen (s : List JsNum) (tau : ℕ) : JsNum :=
  jsAdd (jsSub (sGet s (tau + 1)) (jsMul (some 2) (sGet s tau)))
    (sGet s (tau - 1))

/-- Spec, Phase C: refined period `tau` when `den == 0`, otherwise
`tau + delta / (2*den)`. -/
def specRefinedPeriod (s : List JsNum) (tau : ℕ) : JsNum :=
  if specDen s tau = some 0 then some (tau : ℚ)
  else jsAdd (some (tau : ℚ)) (jsDiv (specDelta s tau) (jsMul (some 2) (specDen s tau)))

/-! ## Reference forms of the Phase A accumulator -/

/-- The running `total` of `_asf` after lags `1 .. n` have been processed. -/
def totalAfter (d : List ℚ) (L : ℕ) : ℕ → JsNum
  | 0 => some 0
  | n + 1 => jsAdd (totalAfter d L n) (sumAt d L (n + 1))

/-- The value `_asf` stores at lag `tau ≥ 1`:
`sum * (tau / total)` with `total` the running total at `tau`. -/
def lagValue (d : List ℚ) (L tau : ℕ) : JsNum :=
  jsMul (sumAt d L tau) (jsDiv (some (tau : ℚ)) (totalAfter d L tau))

/-! ## Concrete inputs used by witnesses and counterexamples -/

/-- A frame of length 8 on which Phase B stops at `tau = maxLag = 3`,
so Phase C reads `yinBuffer[4]` out of bounds and the call returns NaN. -/
def dataOob : List ℚ := [1, 0, 0, 0, 0, 0, 0, 0]

/-- A frame of length 8 on which Phase B stops at `tau = 2` with all three
interpolation reads finite, `delta = 0` and `den ≠ 0`; the call succeeds
with period exactly `2`. -/
def dataFlat : List ℚ := [17, 0, 17, 0, 17, 10, -1, 0]

/-- A validly constructed estimator: frame length 8, sample rate 8000,
threshold 0.2. -/
def yinEx : Yin := Yin.make 8 8000 (1 / 5)

/-- What `getPitch yinEx dataFlat` returns: frequency `8000 / 2 = 4000`. -/
def resFlat : CallResult :=
  ⟨some 4000, ⟨8, 8000, 1 / 5, [some 1, some 1, some (25 / 157), some 1]⟩, dataFlat⟩

/-! # Theorems

## Phase A: characterization of `asf` -/

theorem cmndfStep_snd_length (d : List ℚ) (L : ℕ) (st : JsNum × List JsNum) (tau : ℕ) :
    ((cmndfStep d L st tau).2).length = st.2.length := by
  simp [cmndfStep]

theorem foldl_cmndf_length (d : List ℚ) (L : ℕ) (l : List ℕ) :
    ∀ st : JsNum × List JsNum, ((l.foldl (cmndfStep d L) st).2).length = st.2.length := by
  induction l with
  | nil => intro st; rfl
  | cons a l ih =>
    intro st
    rw [List.foldl_cons, ih, cmndfStep_snd_length]

theorem foldl_cmndf_spec (d : List ℚ) (L : ℕ) (n : ℕ) (s1 : List JsNum) :
    ((List.range' 1 n).foldl (cmndfStep d L) (some 0, s1)).1 = totalAfter d L n ∧
    ∀ i : ℕ, ((List.range' 1 n).foldl (cmndfStep d L) (some 0, s1)).2[i]? =
      if 1 ≤ i ∧ i ≤ n ∧ i < s1.length then some (lagValue d L i) else s1[i]? := by
  induction n with
  | zero =>
    refine ⟨rfl, fun i => ?_⟩
    have : ¬ (1 ≤ i ∧ i ≤ 0 ∧ i < s1.length) := by omega
    rw [List.range', List.foldl_nil, if_neg this]
  | succ n ih =>
    have hconc : List.range' 1 (n + 1) = List.range' 1 n ++ [1 + 1 * n] :=
      List.range'_concat 1 n
    have hn1 : 1 + 1 * n = n + 1 := by omega
    rw [hconc, hn1, List.foldl_append, List.foldl_cons, List.foldl_nil]
    set st := (List.range' 1 n).foldl (cmndfStep d L) ((some 0 : JsNum), s1) with hst
    have hfst : st.1 = totalAfter d L n := ih.1
    have hlen : st.2.length = s1.length := foldl_cmndf_length d L _ _
    constructor
    · show (jsAdd st.1 (sumAt d L (n + 1))) = totalAfter d L (n + 1)
      rw [hfst]; rfl
    · intro i
      show (st.2.set (n + 1) _)[i]? = _
      rw [List.getElem?_set]
      by_cases hi : n + 1 = i
      · subst hi
        rw [if_pos rfl, hlen]
        by_cases hlt : n + 1 < s1.length
        · rw [if_pos hlt, if_pos ⟨by omega, le_refl _, hlt⟩]
          show some (jsMul (sumAt d L (n+1)) (jsDiv _ (jsAdd st.1 (sumAt d L (n+1))))) = _
          rw [hfst]
          rfl
        · rw [if_neg hlt, if_neg (by omega)]
          exact (List.getElem?_eq_none (by omega)).symm
      · rw [if_neg hi, ih.2 i]
        by_cases hcond : 1 ≤ i ∧ i ≤ n ∧ i < s1.length
        · rw [if_pos hcond, if_pos ⟨hcond.1, by omega, hcond.2.2⟩]
        · rw [if_neg hcond, if_neg (by omega)]

theorem asf_getElem? (d : List ℚ) (s : List JsNum) (i : ℕ) :
    (asf d s)[i]? =
      if 1 ≤ i ∧ i ≤ s.length - 1 ∧ i < s.length then some (lagValue d s.length i)
      else (s.set 0 (some 1))[i]? := by
  have h := (foldl_cmndf_spec d s.length (s.length - 1) (s.set 0 (some 1))).2 i
  unfold asf
  rw [h, List.length_set]

theorem asf_length (d : List ℚ) (s : List JsNum) : (asf d s).length = s.length := by
  unfold asf
  rw [foldl_cmndf_length, List.length_set]

theorem sumAt_toSum (d : List ℚ) (L tau : ℕ) (h : ∀ i, i < L → i + tau < d.length) :
    sumAt d L tau = some (diffSum d L tau) := by
  suffices haux : ∀ (n : ℕ), n ≤ L → ∀ a : ℚ,
      (List.range n).foldl
        (fun sum index =>
          jsAdd sum (jsMul (jsSub (dGet d index) (dGet d (index + tau)))
                           (jsSub (dGet d index) (dGet d (index + tau))))) (some a) =
        some (a + ∑ i ∈ Finset.range n, (d.getD i 0 - d.getD (i + tau) 0) ^ 2) by
    have := haux L (le_refl L) 0
    rw [sumAt, this, diffSum, zero_add]
  intro n
  induction n with
  | zero => intro _ a; simp
  | succ n ih =>
    intro hn a
    have hi : n + tau < d.length := h n (by omega)
    have hi' : n < d.length := by omega
    rw [List.range_succ, List.foldl_append, List.foldl_cons, List.foldl_nil,
      ih (by omega) a]
    unfold dGet
    rw [List.getElem?_eq_getElem hi', List.getElem?_eq_getElem hi]
    show some (a + _ + (d[n] - d[n + tau]) * (d[n] - d[n + tau])) = _
    rw [Finset.sum_range_succ]
    congr 1
    have hg : d.getD n 0 = d[n] := by
      rw [List.getD_eq_getElem?_getD, List.getElem?_eq_getElem hi']; rfl
    have hg' : d.getD (n + tau) 0 = d[n + tau] := by
      rw [List.getD_eq_getElem?_getD, List.getElem?_eq_getElem hi]; rfl
    rw [hg, hg']
    ring

theorem totalAfter_toSum (d : List ℚ) (L n : ℕ)
    (h : ∀ j, 1 ≤ j → j ≤ n → ∀ i, i < L → i + j < d.length) :
    totalAfter d L n = some (cumTotal d L n) := by
  induction n with
  | zero =>
    show some 0 = some (cumTotal d L 0)
    rw [cumTotal]
    norm_num
  | succ n ih =>
    rw [totalAfter, ih (fun j h1 h2 i hi => h j h1 (by omega) i hi),
      sumAt_toSum d L (n + 1) (fun i hi => h (n + 1) (by omega) (le_refl _) i hi)]
    show some (cumTotal d L n + diffSum d L (n + 1)) = _
    rw [cumTotal, cumTotal, ← Nat.Icc_insert_succ_right (by omega),
      Finset.sum_insert (by simp)]
    congr 1
    ring

/-- The one read of the buffer `_asf` produces: lag `0` holds `1`, lags
`1 .. length-1` hold `lagValue`, and reads past the end give `undefined`. -/
theorem sGet_asf (d : List ℚ) (s : List JsNum) (i : ℕ) :
    sGet (asf d s) i =
      if 1 ≤ i ∧ i < s.length then lagValue d s.length i
      else if i = 0 ∧ 0 < s.length then some 1
      else none := by
  unfold sGet
  rw [asf_getElem?]
  by_cases h1 : 1 ≤ i ∧ i < s.length
  · rw [if_pos ⟨h1.1, by omega, h1.2⟩, if_pos h1]
    rfl
  · rw [if_neg (by omega), if_neg h1]
    by_cases h0 : i = 0 ∧ 0 < s.length
    · rw [if_pos h0, h0.1, List.getElem?_set_eq_of_lt _ (by omega)]
      rfl
    · rw [if_neg h0, List.getElem?_eq_none]
      · rfl
      · rw [List.length_set]; omega

/-! ## Claims C5 and C1: the scratch buffer after Phase A -/

/-- C5: for every input accepted by `estimatePitch`, `scratchBuffer[0]`
equals `1` immediately after Phase A completes, regardless of the sample
values (for any non-empty scratch buffer, i.e. any `frameLength ≥ 2`). -/
theorem c5_scratch_zero (d : List ℚ) (s : List JsNum) (h : 0 < s.length) :
    sGet (asf d s) 0 = some 1 := by
  rw [sGet_asf, if_neg (by omega), if_pos ⟨rfl, h⟩]

theorem c5_witness :
    0 < (List.replicate 4 (some 0) : List JsNum).length ∧
      sGet (asf dataFlat (List.replicate 4 (some 0))) 0 = some 1 :=
  ⟨by decide, c5_scratch_zero dataFlat (List.replicate 4 (some 0)) (by decide)⟩

/-- C1: for every input of length `frameLength`, Phase A stores at each lag
`tau` in `[1, L-1]` (`L = frameLength / 2` = scratch length) the value
`sum_tau * (tau / total_tau)`, where `sum_tau = Σ_{i<L} (samples[i] -
samples[i+tau])²` and `total_tau` is the cumulative sum of
`sum_1 .. sum_tau` including the current one (JS semantics: the product is
NaN when `total_tau = 0`). -/
theorem c1_cmndf (d : List ℚ) (s : List JsNum) (tau : ℕ)
    (h1 : 1 ≤ tau) (h2 : tau < s.length) (hd : d.length = 2 * s.length) :
    sGet (asf d s) tau =
      jsMul (some (diffSum d s.length tau))
        (jsDiv (some (tau : ℚ)) (some (cumTotal d s.length tau))) := by
  rw [sGet_asf, if_pos ⟨h1, h2⟩, lagValue,
    sumAt_toSum d s.length tau (fun i hi => by omega),
    totalAfter_toSum d s.length tau (fun j hj1 hj2 i hi => by omega)]

theorem c1_witness :
    1 ≤ 2 ∧ 2 < (List.replicate 4 (some 0) : List JsNum).length ∧
      dataFlat.length = 2 * (List.replicate 4 (some 0) : List JsNum).length ∧
      sGet (asf dataFlat (List.replicate 4 (some 0))) 2 =
        jsMul (some (diffSum dataFlat (List.replicate 4 (some 0) : List JsNum).length 2))
          (jsDiv (some ((2 : ℕ) : ℚ))
            (some (cumTotal dataFlat (List.replicate 4 (some 0) : List JsNum).length 2))) :=
  ⟨by decide, by decide, by decide,
    c1_cmndf dataFlat (List.replicate 4 (some 0)) 2 (by decide) (by decide) (by decide)⟩

/-! ## Phase B: loop facts -/

theorem loop1_ge (s : List JsNum) (θ : ℚ) (maxLag : ℕ) :
    ∀ fuel tau, tau ≤ loop1 s θ maxLag fuel tau := by
  intro fuel
  induction fuel with
  | zero => intro tau; exact le_refl _
  | succ fuel ih =>
    intro tau
    rw [loop1]
    split
    · exact le_trans (by omega) (ih (tau + 1))
    · exact le_refl _

theorem loop1_le (s : List JsNum) (θ : ℚ) (maxLag : ℕ) :
    ∀ fuel tau, loop1 s θ maxLag fuel tau ≤ max tau maxLag := by
  intro fuel
  induction fuel with
  | zero => intro tau; exact le_max_left _ _
  | succ fuel ih =>
    intro tau
    rw [loop1]
    split
    · next h => exact le_trans (ih (tau + 1)) (by omega)
    · exact le_max_left _ _

theorem loop1_exit (s : List JsNum) (θ : ℚ) (maxLag : ℕ) :
    ∀ fuel tau, maxLag ≤ tau + fuel →
      ¬(loop1 s θ maxLag fuel tau < maxLag ∧
        jsGe (sGet s (loop1 s θ maxLag fuel tau)) (some θ) = true) := by
  intro fuel
  induction fuel with
  | zero =>
    intro tau h
    rw [loop1]
    omega
  | succ fuel ih =>
    intro tau h
    rw [loop1]
    split
    · exact ih (tau + 1) (by omega)
    · next hc => exact hc

theorem loop1_entry (s : List JsNum) (θ : ℚ) (maxLag : ℕ) :
    ∀ fuel tau, loop1 s θ maxLag fuel tau = tau ∨
      jsGe (sGet s (loop1 s θ maxLag fuel tau - 1)) (some θ) = true := by
  intro fuel
  induction fuel with
  | zero => intro tau; exact Or.inl rfl
  | succ fuel ih =>
    intro tau
    rw [loop1]
    split
    · next hc =>
      rcases ih (tau + 1) with h | h
      · rw [h]
        exact Or.inr (by simpa using hc.2)
      · exact Or.inr h
    · exact Or.inl rfl

theorem loop2_ge (s : List JsNum) (maxLag : ℕ) :
    ∀ fuel tau, tau ≤ loop2 s maxLag fuel tau := by
  intro fuel
  induction fuel with
  | zero => intro tau; exact le_refl _
  | succ fuel ih =>
    intro tau
    rw [loop2]
    split
    · exact le_trans (by omega) (ih (tau + 1))
    · exact le_refl _

theorem loop2_le (s : List JsNum) (maxLag : ℕ) :
    ∀ fuel tau, loop2 s maxLag fuel tau ≤ max tau maxLag := by
  intro fuel
  induction fuel with
  | zero => intro tau; exact le_max_left _ _
  | succ fuel ih =>
    intro tau
    rw [loop2]
    split
    · next h => exact le_trans (ih (tau + 1)) (by omega)
    · exact le_max_left _ _

theorem loop2_exit (s : List JsNum) (maxLag : ℕ) :
    ∀ fuel tau, maxLag ≤ tau + fuel →
      ¬(loop2 s maxLag fuel tau < maxLag ∧
        jsLt (sGet s (loop2 s maxLag fuel tau + 1)) (sGet s (loop2 s maxLag fuel tau)) = true) := by
  intro fuel
  induction fuel with
  | zero =>
    intro tau h
    rw [loop2]
    omega
  | succ fuel ih =>
    intro tau h
    rw [loop2]
    split
    · exact ih (tau + 1) (by omega)
    · next hc => exact hc

theorem loop2_entry (s : List JsNum) (maxLag : ℕ) :
    ∀ fuel tau, loop2 s maxLag fuel tau = tau ∨
      jsLt (sGet s (loop2 s maxLag fuel tau)) (sGet s (loop2 s maxLag fuel tau - 1)) = true := by
  intro fuel
  induction fuel with
  | zero => intro tau; exact Or.inl rfl
  | succ fuel ih =>
    intro tau
    rw [loop2]
    split
    · next hc =>
      rcases ih (tau + 1) with h | h
      · rw [h]
        exact Or.inr (by simpa using hc.2)
      · exact Or.inr h
    · exact Or.inl rfl

theorem phaseB_ge_two (s : List JsNum) (θ : ℚ) : 2 ≤ phaseB s θ := by
  unfold phaseB
  exact le_trans (loop1_ge s θ _ s.length 2) (loop2_ge s _ s.length _)

theorem phaseB_eq (s : List JsNum) (θ : ℚ) :
    phaseB s θ = loop2 s (s.length - 1) s.length (loop1 s θ (s.length - 1) s.length 2) := rfl

theorem phaseB_le_max (s : List JsNum) (θ : ℚ) : phaseB s θ ≤ max 2 (s.length - 1) := by
  rw [phaseB_eq]
  have h1 := loop1_le s θ (s.length - 1) s.length 2
  have h2 := loop2_le s (s.length - 1) s.length (loop1 s θ (s.length - 1) s.length 2)
  omega

/-! ## Claim C3: where Phase B terminates -/

/-- C3 (amended): Phase B always terminates, at some `tau` with
`2 ≤ tau ≤ max 2 maxLag` where `maxLag = L - 1`; the claimed range
`[2, maxLag]` holds whenever `maxLag ≥ 2` (i.e. `frameLength ≥ 6`), but for
`frameLength ∈ {2, 4}` the result `tau = 2` lies above `maxLag`. -/
theorem c3_phaseB_bounds (d : List ℚ) (buf : List JsNum) (θ : ℚ) :
    2 ≤ phaseB (asf d buf) θ ∧ phaseB (asf d buf) θ ≤ max 2 (buf.length - 1) := by
  refine ⟨phaseB_ge_two _ _, ?_⟩
  have h := phaseB_le_max (asf d buf) θ
  rw [asf_length] at h
  exact h

/-- C3 counterexample: for `frameLength = 4` (a positive even integer, so a
valid construction) the scratch length is `L = 2` and `maxLag = 1`; Phase B
terminates at `tau = 2`, which is not in `[2, maxLag] = [2, 1] = ∅`. -/
theorem c3_counterexample :
    phaseB (asf [0, 0, 0, 0] [some 0, some 0]) (1 / 5) = 2 ∧
      ¬ phaseB (asf [0, 0, 0, 0] [some 0, some 0]) (1 / 5) ≤
        ([some 0, some 0] : List JsNum).length - 1 := by
  with_unfolding_all decide

/-! ## Claim C10: the out-of-bounds interpolation read -/

/-- C10 (the code violates it): on `dataOob` (frame length 8, `L = 4`,
`maxLag = 3`, threshold 0.2) Phase B terminates at `tau = 3 = maxLag`, and
Phase C then reads `scratchBuffer[tau + 1] = scratchBuffer[4]`, an index
outside `[0, L-1] = [0, 3]`: the read yields `undefined` (here `none`) and
the call's result is NaN instead of a frequency. -/
theorem c10_oob_read :
    phaseB (asf dataOob (List.replicate 4 (some 0))) (1 / 5) = 3 ∧
      (asf dataOob (List.replicate 4 (some 0))).length = 4 ∧
      (asf dataOob (List.replicate 4 (some 0)))[3 + 1]? = none ∧
      (getPitch yinEx dataOob).toOption.map CallResult.ret = some none := by
  with_unfolding_all decide

/-! ## `getPitch` plumbing -/

/-- `_asf` overwrites every cell it can reach, so its output depends on the
previous scratch contents only through their length. -/
theorem asf_congr (d : List ℚ) (s s' : List JsNum) (h : s.length = s'.length) :
    asf d s = asf d s' := by
  apply List.ext_getElem?
  intro i
  rw [asf_getElem?, asf_getElem?, h]
  by_cases hc : 1 ≤ i ∧ i ≤ s'.length - 1 ∧ i < s'.length
  · rw [if_pos hc, if_pos hc]
  · rw [if_neg hc, if_neg hc]
    by_cases h0 : i = 0
    · subst h0
      by_cases hl : 0 < s'.length
      · rw [List.getElem?_set_eq_of_lt _ (by omega), List.getElem?_set_eq_of_lt _ hl]
      · rw [List.getElem?_eq_none (by rw [List.length_set]; omega),
          List.getElem?_eq_none (by rw [List.length_set]; omega)]
    · rw [List.getElem?_eq_none (by rw [List.length_set]; omega),
        List.getElem?_eq_none (by rw [List.length_set]; omega)]

theorem getPitch_eq (y : Yin) (d : List ℚ) (h : d.length = y.bufferLength) :
    getPitch y d = .ok ⟨jsDiv (some y.sampleRate)
        (phaseC (asf d y.yinBuffer) (phaseB (asf d y.yinBuffer) y.threshold)),
      { y with yinBuffer := asf d y.yinBuffer }, d⟩ := by
  unfold getPitch
  rw [if_pos h]
  rfl

theorem getPitch_ok_length (y : Yin) (d : List ℚ) (res : CallResult)
    (h : getPitch y d = .ok res) : d.length = y.bufferLength := by
  by_contra hne
  unfold getPitch at h
  rw [if_neg hne] at h
  exact absurd h (by simp)

theorem getPitch_ok_elim (y : Yin) (d : List ℚ) (res : CallResult)
    (h : getPitch y d = .ok res) :
    res = ⟨jsDiv (some y.sampleRate)
        (phaseC (asf d y.yinBuffer) (phaseB (asf d y.yinBuffer) y.threshold)),
      { y with yinBuffer := asf d y.yinBuffer }, d⟩ := by
  rw [getPitch_eq y d (getPitch_ok_length y d res h)] at h
  exact (Except.ok.inj h).symm

theorem getPitch_dataFlat : getPitch yinEx dataFlat = .ok resFlat := by
  with_unfolding_all rfl

/-! ## Claim C9: the call's only effect is on the scratch buffer -/

/-- C9: a successful `estimatePitch` call leaves the input samples unchanged
and the configuration fields (`frameLength`, `sampleRate`, `threshold`)
exactly as constructed; only `yinBuffer` is mutated. -/
theorem c9_frame (y : Yin) (d : List ℚ) (res : CallResult)
    (h : getPitch y d = .ok res) :
    res.inst.bufferLength = y.bufferLength ∧ res.inst.sampleRate = y.sampleRate ∧
      res.inst.threshold = y.threshold ∧ res.data = d := by
  rw [getPitch_ok_elim y d res h]
  exact ⟨rfl, rfl, rfl, rfl⟩

theorem c9_witness :
    resFlat.inst.bufferLength = yinEx.bufferLength ∧
      resFlat.inst.sampleRate = yinEx.sampleRate ∧
      resFlat.inst.threshold = yinEx.threshold ∧ resFlat.data = dataFlat :=
  c9_frame yinEx dataFlat resFlat getPitch_dataFlat

/-! ## Claim C8: calling twice with the same input gives the same output -/

/-- C8: calling `estimatePitch` twice in succession with identical input on
the same instance yields identical output both times — the scratch buffer
reuse leaks no state into the second call. -/
theorem c8_deterministic (y : Yin) (d : List ℚ) (r1 : CallResult)
    (h : getPitch y d = .ok r1) :
    ∃ r2 : CallResult, getPitch r1.inst d = .ok r2 ∧ r2.ret = r1.ret := by
  have hl := getPitch_ok_length y d r1 h
  rw [getPitch_ok_elim y d r1 h]
  refine ⟨_, getPitch_eq { y with yinBuffer := asf d y.yinBuffer } d hl, ?_⟩
  show jsDiv _ (phaseC (asf d (asf d y.yinBuffer)) (phaseB (asf d (asf d y.yinBuffer)) _)) = _
  rw [asf_congr d (asf d y.yinBuffer) y.yinBuffer (asf_length d y.yinBuffer)]

theorem c8_witness :
    ∃ r2 : CallResult, getPitch resFlat.inst dataFlat = .ok r2 ∧ r2.ret = resFlat.ret :=
  c8_deterministic yinEx dataFlat resFlat getPitch_dataFlat

/-! ## Claim C4: the parabolic interpolation and the returned frequency -/

theorem phaseC_eq_spec (s : List JsNum) (tau : ℕ) : phaseC s tau = specRefinedPeriod s tau := rfl

/-- C4: for the `tau` chosen by Phase B, the refined period is exactly `tau`
when `den = scratchBuffer[tau+1] - 2*scratchBuffer[tau] +
scratchBuffer[tau-1]` is `0`, and `tau + delta / (2*den)` with `delta =
scratchBuffer[tau-1] - scratchBuffer[tau+1]` otherwise; the returned
frequency is `sampleRate / refinedPeriod`. -/
theorem c4_interpolation (y : Yin) (d : List ℚ) (res : CallResult)
    (h : getPitch y d = .ok res) :
    res.ret = jsDiv (some y.sampleRate)
      (specRefinedPeriod (asf d y.yinBuffer) (phaseB (asf d y.yinBuffer) y.threshold)) := by
  rw [getPitch_ok_elim y d res h]
  show jsDiv _ (phaseC _ _) = _
  rw [phaseC_eq_spec]

theorem c4_witness :
    resFlat.ret = jsDiv (some yinEx.sampleRate)
      (specRefinedPeriod (asf dataFlat yinEx.yinBuffer)
        (phaseB (asf dataFlat yinEx.yinBuffer) yinEx.threshold)) :=
  c4_interpolation yinEx dataFlat resFlat getPitch_dataFlat

/-! ## Claims C6 and C7: constructor validation -/

/-- C6 (amended): the constructor's `frameLength` check (`bufferLength & 1`)
rejects exactly those values whose truncation toward zero is odd; it
accepts zero, negative even integers, and non-integers with an even
truncation — not only the positive even integers the claim states.  (The
32-bit wrap of JS `ToInt32` cannot change the low bit.) -/
theorem c6_frameLength_check (x : ℚ) :
    frameLengthCheckFails x = false ↔ ratTrunc x % 2 = 0 := by
  simp only [frameLengthCheckFails, jsToInt32, decide_eq_false_iff_not]
  omega

/-- C6 counterexample: `frameLength = 0` is not a positive even integer, yet
the whole constructor (with valid `sampleRate` and `threshold`) does not
throw on it. -/
theorem c6_counterexample :
    yinCtorThrows 0 8000 (.num (some (1 / 5))) = false ∧ ¬ (0 : ℚ) > 0 := by
  with_unfolding_all decide

/-- C7 (amended): the constructor's `threshold` check throws exactly for
non-number values and for numbers `≤ 0` or `≥ 1`; NaN passes the check
(every JS comparison against NaN is false), contrary to the claim. -/
theorem c7_threshold_check (t : JsVal) :
    thresholdCheckFails t = true ↔
      t = .nonNumber ∨ ∃ q : ℚ, t = .num (some q) ∧ (q ≤ 0 ∨ 1 ≤ q) := by
  cases t with
  | nonNumber => simp [thresholdCheckFails]
  | num x =>
    cases x with
    | none => simp [thresholdCheckFails, jsLe, jsGe]
    | some q => simp [thresholdCheckFails, jsLe, jsGe]

/-- C7 counterexample: `threshold = NaN` is not a real number strictly
between 0 and 1, yet the constructor (with valid `frameLength` and
`sampleRate`) does not throw on it. -/
theorem c7_counterexample : yinCtorThrows 8 8000 (.num none) = false := by
  with_unfolding_all decide

/-! ## Claim C2: the range of the returned value -/

theorem sGet_some_lt (s : List JsNum) (i : ℕ) (q : ℚ) (h : sGet s i = some q) :
    i < s.length := by
  by_contra hge
  unfold sGet at h
  rw [List.getElem?_eq_none (by omega)] at h
  exact absurd h (by simp)

/-- A finite value stored by Phase A at lag 1 can only be `1`
(`sum_1 * (1 / sum_1)`). -/
theorem lagValue_one (d : List ℚ) (L : ℕ) (q : ℚ) (h : lagValue d L 1 = some q) :
    q = 1 := by
  have ht : totalAfter d L 1 = jsAdd (some 0) (sumAt d L 1) := rfl
  unfold lagValue at h
  rw [ht] at h
  cases hs : sumAt d L 1 with
  | none => rw [hs] at h; exact absurd h (by simp [jsAdd, jsDiv, jsMul])
  | some x =>
    rw [hs] at h
    by_cases hx : x = 0
    · subst hx
      exact absurd h (by simp [jsAdd, jsDiv, jsMul])
    · have hred : jsMul (some x) (jsDiv (some ((1 : ℕ) : ℚ)) (jsAdd (some 0) (some x))) =
          some (x * (((1 : ℕ) : ℚ) / x)) := by
        simp [jsAdd, jsDiv, jsMul, hx]
      rw [hred] at h
      rw [← Option.some.inj h, Nat.cast_one, one_div, mul_inv_cancel₀ hx]

theorem sGet_asf_one (d : List ℚ) (s : List JsNum) (q : ℚ)
    (h : sGet (asf d s) 1 = some q) : q = 1 := by
  rw [sGet_asf] at h
  by_cases hl : 1 < s.length
  · rw [if_pos ⟨le_refl 1, hl⟩] at h
    exact lagValue_one d s.length q h
  · rw [if_neg (by omega), if_neg (by omega)] at h
    exact absurd h (by simp)

theorem jsAdd_none_right (x : JsNum) : jsAdd x none = none := by cases x <;> rfl

theorem jsSub_none_left (x : JsNum) : jsSub none x = none := by cases x <;> rfl

theorem jsSub_none_right (x : JsNum) : jsSub x none = none := by cases x <;> rfl

theorem jsMul_none_right (x : JsNum) : jsMul x none = none := by cases x <;> rfl

theorem jsDiv_none_left (x : JsNum) : jsDiv none x = none := by cases x <;> rfl

theorem jsDiv_none_right (x : JsNum) : jsDiv x none = none := by cases x <;> rfl

/-- On any Phase-A buffer, the period Phase B/C produce is NaN or strictly
positive.  At the final `tau` with all three interpolation reads finite, the
loop exit conditions give `b[tau] < b[tau-1]` (via the threshold or the
descent) and `b[tau] ≤ b[tau+1]`, so the parabola opens upwards
(`den > 0`) and `tau + delta/(2*den) > 0` since `tau ≥ 2`. -/
theorem period_pos (s : List JsNum) (θ : ℚ) (hθ : θ < 1)
    (hone : ∀ q : ℚ, sGet s 1 = some q → q = 1) :
    phaseC s (phaseB s θ) = none ∨ ∃ p : ℚ, phaseC s (phaseB s θ) = some p ∧ 0 < p := by
  have htau2 : 2 ≤ phaseB s θ := phaseB_ge_two s θ
  set tau := phaseB s θ with htau
  cases ha : sGet s (tau - 1) with
  | none =>
    left
    simp [phaseC, ha, jsAdd_none_right, jsMul_none_right, jsDiv_none_right]
  | some qa =>
  cases hb : sGet s tau with
  | none =>
    left
    simp [phaseC, ha, hb, jsAdd_none_right, jsMul_none_right, jsSub_none_right,
      jsDiv_none_right, jsAdd, jsDiv]
  | some qb =>
  cases hc : sGet s (tau + 1) with
  | none =>
    left
    simp [phaseC, ha, hb, hc, jsAdd_none_right, jsMul_none_right, jsSub_none_left,
      jsSub_none_right, jsDiv_none_left, jsDiv_none_right, jsAdd, jsDiv]
  | some qc =>
  have hclen : tau + 1 < s.length := sGet_some_lt s (tau + 1) qc hc
  have hml : tau < s.length - 1 := by omega
  have hexit2 := loop2_exit s (s.length - 1) s.length (loop1 s θ (s.length - 1) s.length 2)
    (by omega)
  rw [← phaseB_eq, ← htau] at hexit2
  have hbc : qb ≤ qc := by
    by_contra hlt
    exact hexit2 ⟨hml, by rw [hc, hb]; simp [jsLt]; exact lt_of_not_le hlt⟩
  have hentry2 := loop2_entry s (s.length - 1) s.length (loop1 s θ (s.length - 1) s.length 2)
  rw [← phaseB_eq, ← htau] at hentry2
  have hba : qb < qa := by
    rcases hentry2 with h2 | h2
    · have hexit1 := loop1_exit s θ (s.length - 1) s.length 2 (by omega)
      rw [← h2] at hexit1
      have hbθ : qb < θ := by
        by_contra hge
        exact hexit1 ⟨hml, by rw [hb]; simp [jsGe, jsLe]; exact le_of_not_lt hge⟩
      have hentry1 := loop1_entry s θ (s.length - 1) s.length 2
      rw [← h2] at hentry1
      rcases hentry1 with h3 | h3
      · rw [h3] at ha
        have ha1 : sGet s 1 = some qa := by simpa using ha
        have := hone qa ha1
        linarith
      · rw [ha] at h3
        have : θ ≤ qa := by simpa [jsGe, jsLe] using h3
        linarith
    · rw [hb, ha] at h2
      simp [jsLt] at h2
      exact h2
  have hdval : jsAdd (jsSub (sGet s (tau + 1)) (jsMul (some 2) (sGet s tau)))
      (sGet s (tau - 1)) = some (qc - 2 * qb + qa) := by
    rw [ha, hb, hc]; rfl
  have hdelta : jsSub (sGet s (tau - 1)) (sGet s (tau + 1)) = some (qa - qc) := by
    rw [ha, hc]; rfl
  have hden : 0 < qc - 2 * qb + qa := by linarith
  right
  refine ⟨(tau : ℚ) + (qa - qc) / (2 * (qc - 2 * qb + qa)), ?_, ?_⟩
  · show phaseC s tau = _
    simp only [phaseC]
    rw [hdval, hdelta, if_neg (by simp; linarith)]
    have h2ne : ¬ (2 * (qc - 2 * qb + qa) = 0) := by linarith
    simp [jsMul, jsDiv, jsAdd, h2ne]
  · have htq : (2 : ℚ) ≤ (tau : ℚ) := by exact_mod_cast htau2
    have h2d : (0 : ℚ) < 2 * (qc - 2 * qb + qa) := by linarith
    have hkey : -(tau : ℚ) < (qa - qc) / (2 * (qc - 2 * qb + qa)) := by
      rw [lt_div_iff₀ h2d]
      nlinarith [mul_nonneg (by linarith : (0 : ℚ) ≤ (tau : ℚ) - 2)
        (by linarith : (0 : ℚ) ≤ qc - 2 * qb + qa)]
    linarith

/-- C2 (amended): on a validly constructed estimator (`sampleRate > 0`,
`threshold < 1`) a full-length input makes `estimatePitch` return either a
strictly positive frequency or NaN; the `-1` sentinel is never returned
(`_estimatePeriod` never returns `null`, so the not-found branch is dead),
and NaN is reachable (out-of-bounds interpolation read, or zero early
difference sums) — not the "positive or `-1`, nothing else" of the claim. -/
theorem c2_result_range (y : Yin) (d : List ℚ) (res : CallResult)
    (hsr : 0 < y.sampleRate) (hθ : y.threshold < 1)
    (h : getPitch y d = .ok res) :
    res.ret ≠ some (-1) ∧ (res.ret = none ∨ ∃ q : ℚ, res.ret = some q ∧ 0 < q) := by
  rw [getPitch_ok_elim y d res h]
  have hp := period_pos (asf d y.yinBuffer) y.threshold hθ
    (fun q hq => sGet_asf_one d y.yinBuffer q hq)
  show jsDiv (some y.sampleRate)
      (phaseC (asf d y.yinBuffer) (phaseB (asf d y.yinBuffer) y.threshold)) ≠ some (-1) ∧ _
  rcases hp with hp | ⟨p, hp, hpos⟩
  · rw [hp, jsDiv_none_right]
    exact ⟨by simp, Or.inl rfl⟩
  · rw [hp]
    have hpne : ¬ (p = 0) := by linarith
    have hred : jsDiv (some y.sampleRate) (some p) = some (y.sampleRate / p) := by
      simp [jsDiv, hpne]
    rw [hred]
    have hq : 0 < y.sampleRate / p := div_pos hsr hpos
    refine ⟨fun hcon => ?_, Or.inr ⟨_, rfl, hq⟩⟩
    rw [Option.some.inj hcon] at hq
    linarith

theorem c2_witness :
    resFlat.ret ≠ some (-1) ∧
      (resFlat.ret = none ∨ ∃ q : ℚ, resFlat.ret = some q ∧ 0 < q) :=
  c2_result_range yinEx dataFlat resFlat (by with_unfolding_all decide)
    (by with_unfolding_all decide) getPitch_dataFlat

/-- C2 counterexample: on `dataOob` (a frame of the configured length on a
validly constructed estimator) the call returns NaN — neither a positive
real frequency nor the `-1` sentinel. -/
theorem c2_counterexample :
    (getPitch yinEx dataOob).toOption.map CallResult.ret = some none := by
  with_unfolding_all decide
